import Mathlib

/-!
# Invoice generator: totals, worklog aggregation and detail rendering

A shallow embedding of the arithmetic and data-flow parts of `main.go` and
`pdf.go`.

Modelling conventions.

* `float64` values are exact rationals (`ℚ`): the properties below are about
  the exact arithmetic, not about rounding.
* A Go slice is a `List`; indexing outside its bounds is a run-time error of
  the Go program, recorded here as `Except.error (Panic.indexOutOfRange i len)`.
* The drawing calls of the `gopdf` library are recorded as the values they are
  given (a table row, a totals row, a text cell), and are taken to succeed; a
  totals row also records the two-decimal amount that its cell shows.
* A Go function returning `(value, error)` returns a pair whose second
  component is `none` for a `nil` error.
-/

namespace Invoice

/-! ## Run-time failures and error values -/

/-- A Go run-time failure: `index out of range [idx] with length len`. -/
inductive Panic where
  | indexOutOfRange (idx len : Nat)
  deriving DecidableEq, Repr

/-- The error values `readWorklogCsv` can return. -/
inductive GoError where
  /-- The value of `fmt.Errorf("unexpected worklog headers")`. -/
  | unexpectedHeaders
  /-- The error from `time.Parse` on the given text. -/
  | parseTime (value : String)
  /-- The error from `strconv.Atoi` on the given text. -/
  | atoi (value : String)
  deriving DecidableEq, Repr

/-- Slice indexing `xs[i]`, failing when `i` is not below `len(xs)`. -/
def index {α : Type} (xs : List α) (i : Nat) : Except Panic α :=
  match xs[i]? with
  | some x => .ok x
  | none => .error (.indexOutOfRange i xs.length)

/-- A calendar day, the part of a `time.Time` the program uses. -/
structure Date where
  year : Nat
  month : Nat
  day : Nat
  deriving DecidableEq, Repr

/-! ## `writeItems` (pdf.go) -/

/-- One row handed to `itemsTable.AddRow`: the date, the item text, and the
values of the quantity, the rate and the amount, from which the texts of the
row are formatted with two decimals. -/
structure ItemRow where
  date : Date
  item : String
  quantity : ℚ
  rate : ℚ
  total : ℚ
  deriving DecidableEq

/-- The variables the loop of `writeItems` updates. -/
structure ItemsState where
  totalCost : ℚ
  totalHours : ℚ
  rows : List ItemRow
  deriving DecidableEq

/-- The body of the loop `for i := range items` of `writeItems`. -/
def writeItemsStep (items : List String) (quantities rates : List ℚ) (dates : List Date)
    (st : ItemsState) (i : Nat) : Except Panic ItemsState := do
  let quantity ← if quantities.length > i then index quantities i else pure 1
  let rate0 ← index rates 0
  let rate ← if rates.length > i then index rates i else pure rate0
  let total := quantity * rate
  let date ← index dates i
  let item ← index items i
  pure { totalCost := st.totalCost + quantity * rate
         totalHours := st.totalHours + quantity
         rows := st.rows ++ [{ date := date, item := item, quantity := quantity,
                               rate := rate, total := total }] }

/-- The loop of `writeItems` over the listed indices. -/
def writeItemsLoop (items : List String) (quantities rates : List ℚ) (dates : List Date) :
    List Nat → ItemsState → Except Panic ItemsState
  | [], st => pure st
  | i :: is, st =>
    match writeItemsStep items quantities rates dates st i with
    | .ok st' => writeItemsLoop items quantities rates dates is st'
    | .error p => .error p

/-- The function `writeItems`: the named results `totalCost` and `totalHours`
start at zero and the loop runs over every index of `items`. -/
def writeItems (items : List String) (quantities rates : List ℚ) (dates : List Date) :
    Except Panic ItemsState :=
  writeItemsLoop items quantities rates dates (List.range items.length)
    { totalCost := 0, totalHours := 0, rows := [] }

/-- The quantity of item `i` in the words of the specification: the entry of
the quantity array when there is one, `1.0` otherwise. -/
def effectiveQuantity (quantities : List ℚ) (i : Nat) : ℚ :=
  if h : i < quantities.length then quantities[i] else 1

/-- The rate of item `i` in the words of the specification: the entry of the
rate array when there is one, the first rate otherwise. -/
def effectiveRate (rates : List ℚ) (hne : rates ≠ []) (i : Nat) : ℚ :=
  if h : i < rates.length then rates[i] else rates.get ⟨0, List.length_pos.mpr hne⟩

/-- The row `writeItems` adds for item `i` when every index is in range. -/
def itemRowAt (items : List String) (quantities rates : List ℚ) (dates : List Date)
    (hne : rates ≠ []) (i : Nat) (hi : i < items.length) (hd : i < dates.length) : ItemRow :=
  { date := dates[i], item := items[i], quantity := effectiveQuantity quantities i,
    rate := effectiveRate rates hne i,
    total := effectiveQuantity quantities i * effectiveRate rates hne i }

/-! ## `writeTotal` and `writeTotals` (pdf.go) -/

/-- The constant `subtotalLabel`. -/
def subtotalLabel : String := "Subtotal"

/-- The constant `discountLabel`. -/
def discountLabel : String := "Discount"

/-- The constant `totalLabel`. -/
def totalLabel : String := "Total Due"

/-- Rounding of a non-negative value to the nearest integer, ties to even. -/
def roundHalfEven (q : ℚ) : Nat :=
  let n := (Int.floor q).toNat
  let frac := q - n
  if frac < 1 / 2 then n
  else if 1 / 2 < frac then n + 1
  else if n % 2 = 0 then n else n + 1

/-- The number that `strconv.FormatFloat(x, 'f', 2, 64)` writes: `x` rounded to
two decimals, ties to even, as a rational (a negative value that rounds to zero
is written `-0.00`, the number `0`). -/
def formatFloatF2 (x : ℚ) : ℚ :=
  if x < 0 then -((roundHalfEven (-x * 100) : ℚ) / 100)
  else (roundHalfEven (x * 100) : ℚ) / 100

/-- One row drawn by `writeTotal`: the label cell, the value `total` the
function was given, the two-decimal number its amount cell shows (after the
currency symbol), and whether the amount is set in bold. -/
structure TotalRow where
  label : String
  amount : ℚ
  shown : ℚ
  bold : Bool
  deriving DecidableEq

/-- The function `writeTotal`: draws the label and, after the currency symbol,
`strconv.FormatFloat(total, 'f', 2, 64)` on one line; the amount is bold exactly
when `label == totalLabel`. The page is the list of rows drawn so far. -/
def writeTotal (pdf : List TotalRow) (label : String) (total : ℚ) : List TotalRow :=
  pdf ++ [{ label := label, amount := total, shown := formatFloatF2 total,
            bold := label == totalLabel }]

/-- The verb `%.0f` of `fmt.Sprintf`: the value rounded to an integer (ties to
even), with the sign kept. -/
def formatF0 (q : ℚ) : String :=
  if q < 0 then "-" ++ toString (roundHalfEven (-q)) else toString (roundHalfEven q)

/-- The label of the tax row: `fmt.Sprintf("%s %.0f%%", taxName, taxRate*100)`. -/
def taxRowLabel (taxName : String) (taxRate : ℚ) : String :=
  taxName ++ " " ++ formatF0 (taxRate * 100) ++ "%"

/-- The function `writeTotals`. -/
def writeTotals (pdf : List TotalRow) (subtotal discount taxRate : ℚ) (taxInclusive : Bool)
    (taxName : String) : List TotalRow :=
  let pdf :=
    if taxInclusive then writeTotal pdf subtotalLabel (subtotal - (subtotal * taxRate))
    else writeTotal pdf subtotalLabel subtotal
  let pdf :=
    if taxRate > 0 then writeTotal pdf (taxRowLabel taxName taxRate) (subtotal * taxRate)
    else pdf
  let pdf := if discount > 0 then writeTotal pdf discountLabel discount else pdf
  let total := subtotal - discount
  let total := if !taxInclusive && taxRate > 0 then total + (subtotal * taxRate) else total
  writeTotal pdf totalLabel total

/-- The call of `writeTotals` in `generateCmd.RunE` (main.go): the discount
amount passed is `totalCost * file.Discount`. -/
def runETotals (totalCost discountRate tax : ℚ) (ratesTaxInclusive : Bool)
    (taxName : String) : List TotalRow :=
  writeTotals [] totalCost (totalCost * discountRate) tax ratesTaxInclusive taxName

/-- The value given to `writeTotal` for the first row with the given label, if
there is one. -/
def rowAmount (rows : List TotalRow) (label : String) : Option ℚ :=
  (rows.find? (fun r => r.label == label)).map (fun r => r.amount)

/-- The two-decimal amount shown on the first row with the given label, if
there is one. -/
def rowShown (rows : List TotalRow) (label : String) : Option ℚ :=
  (rows.find? (fun r => r.label == label)).map (fun r => r.shown)

/-! ## `readWorklogCsv` (main.go) -/

/-- The struct `WorklogEntry`. -/
structure WorklogEntry where
  Date : Date
  Hours : ℚ
  Description : String
  deriving DecidableEq

/-- The pieces of a character sequence between occurrences of `sep`; there is
always at least one piece. -/
def splitChars (sep : Char) : List Char → List (List Char)
  | [] => [[]]
  | c :: cs =>
    if c = sep then [] :: splitChars sep cs
    else
      match splitChars sep cs with
      | [] => [[c]]
      | p :: ps => (c :: p) :: ps

/-- The library function `strings.Split(s, sep)` for a one-character separator. -/
def stringsSplit (s : String) (sep : Char) : List String :=
  (splitChars sep s.data).map String.mk

/-- The value of a run of decimal digits, `none` if a character is not a digit. -/
def digitsValue : List Char → Nat → Option Nat
  | [], acc => some acc
  | c :: cs, acc =>
    if c.isDigit then digitsValue cs (acc * 10 + (c.toNat - '0'.toNat)) else none

/-- The sign handling of `strconv.Atoi`: a leading `-` or `+` is taken off. -/
def stripSign : List Char → Bool × List Char
  | [] => (false, [])
  | c :: rest =>
    if c = '-' then (true, rest) else if c = '+' then (false, rest) else (false, c :: rest)

/-- The library function `strconv.Atoi`: an optional sign `+` or `-`, then one
or more decimal digits, with a value that fits a 64-bit `int`. -/
def strconvAtoi (s : String) : Option Int :=
  let signed := stripSign s.data
  if signed.2 = [] then none
  else
    match digitsValue signed.2 0 with
    | none => none
    | some n =>
      let v : Int := if signed.1 then -(n : Int) else (n : Int)
      if v < -(2 : Int) ^ 63 ∨ (2 : Int) ^ 63 - 1 < v then none else some v

/-- Leap years of the Gregorian calendar, as in the `time` package. -/
def isLeap (year : Nat) : Bool :=
  year % 4 = 0 && (year % 100 ≠ 0 || year % 400 = 0)

/-- The number of days of a month, as in the `time` package. -/
def daysIn (month year : Nat) : Nat :=
  if month = 2 then (if isLeap year then 29 else 28)
  else if month = 4 ∨ month = 6 ∨ month = 9 ∨ month = 11 then 30
  else 31

/-- The value of a decimal digit character. -/
def digitOf (c : Char) : Nat := c.toNat - '0'.toNat

/-- The library call `time.Parse("2006-01-02", value)`: four digits, `-`, two
digits, `-`, two digits and nothing else, with a month from 1 to 12 and a day
that exists in that month. -/
def timeParse (value : String) : Option Date :=
  match value.data with
  | [y1, y2, y3, y4, s1, m1, m2, s2, d1, d2] =>
    if y1.isDigit && y2.isDigit && y3.isDigit && y4.isDigit && s1 = '-' && m1.isDigit &&
        m2.isDigit && s2 = '-' && d1.isDigit && d2.isDigit then
      let year := digitOf y1 * 1000 + digitOf y2 * 100 + digitOf y3 * 10 + digitOf y4
      let month := digitOf m1 * 10 + digitOf m2
      let day := digitOf d1 * 10 + digitOf d2
      if month = 0 ∨ 12 < month then none
      else if day < 1 ∨ daysIn month year < day then none
      else some { year := year, month := month, day := day }
    else none
  | _ => none

/-- The variable `expHeaders`. -/
def expHeaders : List String := ["Date", "Start", "End", "Worked", "Titles"]

/-- The inner loop `for i, header := range record` run on the first record:
`none` when no field differs from `expHeaders[i]`. -/
def checkHeaders : List String → Nat → Except Panic (Option GoError)
  | [], _ => .ok none
  | header :: rest, i =>
    match index expHeaders i with
    | .error p => .error p
    | .ok e =>
      if header != e then .ok (some .unexpectedHeaders) else checkHeaders rest (i + 1)

/-- The body of the loop of `readWorklogCsv` for a record after the first:
either the entry to append or the error to return. -/
def readRecord (record : List String) : Except Panic (Except GoError WorklogEntry) :=
  match index record 0 with
  | .error p => .error p
  | .ok r0 =>
    match timeParse r0 with
    | none => .ok (.error (.parseTime r0))
    | some entryDate =>
      match index record 3 with
      | .error p => .error p
      | .ok r3 =>
        let durationValues := stringsSplit r3 ':'
        match index durationValues 0 with
        | .error p => .error p
        | .ok d0 =>
          match strconvAtoi d0 with
          | none => .ok (.error (.atoi d0))
          | some durationHours =>
            match index durationValues 1 with
            | .error p => .error p
            | .ok d1 =>
              match strconvAtoi d1 with
              | none => .ok (.error (.atoi d1))
              | some durationMinutes =>
                let durationTotal : ℚ := (durationHours : ℚ) + (durationMinutes : ℚ) / 60
                match index record 4 with
                | .error p => .error p
                | .ok entryDescription =>
                  .ok (.ok { Date := entryDate, Hours := durationTotal,
                             Description := entryDescription })

/-- The loop of `readWorklogCsv` over the records after the first, with the
entries collected so far; an error is returned together with `entries`. -/
def readWorklogLoop : List (List String) → List WorklogEntry →
    Except Panic (List WorklogEntry × Option GoError)
  | [], entries => .ok (entries, none)
  | record :: rest, entries =>
    match readRecord record with
    | .error p => .error p
    | .ok (.error err) => .ok (entries, some err)
    | .ok (.ok entry) => readWorklogLoop rest (entries ++ [entry])

/-- The function `readWorklogCsv`, from the records that `csvReader.ReadAll()`
returns: the first record is checked against `expHeaders`, every other record
gives one entry. The result is the pair `(entries, err)`. -/
def readWorklogCsv (records : List (List String)) :
    Except Panic (List WorklogEntry × Option GoError) :=
  match records with
  | [] => .ok ([], none)
  | header :: rest =>
    match checkHeaders header 0 with
    | .error p => .error p
    | .ok (some err) => .ok ([], some err)
    | .ok none => readWorklogLoop rest []

/-- A data row of a worklog given field by field, with the duration field
written as hours text, `:`, minutes text, together with the date and the two
integers its texts stand for. -/
structure WorklogRow where
  dateText : String
  startText : String
  endText : String
  hoursText : String
  minutesText : String
  titles : String
  date : Date
  hours : Int
  minutes : Int

/-- The five fields of a data row. -/
def WorklogRow.record (r : WorklogRow) : List String :=
  [r.dateText, r.startText, r.endText, r.hoursText ++ ":" ++ r.minutesText, r.titles]

/-- The texts of a data row parse to its date and integers. -/
def WorklogRow.WellFormed (r : WorklogRow) : Prop :=
  timeParse r.dateText = some r.date ∧ strconvAtoi r.hoursText = some r.hours ∧
    strconvAtoi r.minutesText = some r.minutes

/-- The entry the specification gives for a data row: its date, `H + M/60`
hours, and the fifth field as description. -/
def WorklogRow.entry (r : WorklogRow) : WorklogEntry :=
  { Date := r.date, Hours := (r.hours : ℚ) + (r.minutes : ℚ) / 60, Description := r.titles }

/-! ## `writeDetails` (pdf.go) -/

/-- The library function `sort.Strings`: the strings in ascending order. -/
def sortStrings (keys : List String) : List String :=
  keys.insertionSort (fun a b => a ≤ b)

/-- The map lookup `details[k]`, the empty string for a key that is absent. -/
def mapIndex (details : List (String × String)) (k : String) : String :=
  (details.lookup k).getD ""

/-- The function `writeDetails`. The map `details` is given by its entries in
the order in which the loop `for k := range details` visits them, which Go
leaves unspecified; a map has no key twice. The page is the list of the texts
of the cells drawn so far. -/
def writeDetails (pdf : List String) (details : List (String × String)) : List String :=
  let keys := details.foldl (fun keys kv => keys ++ [kv.1]) []
  let keys := sortStrings keys
  keys.foldl (fun pdf k => pdf ++ [k ++ ": " ++ mapIndex details k]) pdf

/-! ## Theorems: `writeItems` -/

theorem index_of_lt {α : Type} (xs : List α) (i : Nat) (h : i < xs.length) :
    index xs i = .ok xs[i] := by
  simp [index, List.getElem?_eq_getElem h]

theorem writeItemsStep_ok (items : List String) (quantities rates : List ℚ) (dates : List Date)
    (hne : rates ≠ []) (st : ItemsState) (i : Nat) (hi : i < items.length)
    (hd : i < dates.length) :
    writeItemsStep items quantities rates dates st i =
      .ok { totalCost := st.totalCost + effectiveQuantity quantities i * effectiveRate rates hne i
            totalHours := st.totalHours + effectiveQuantity quantities i
            rows := st.rows ++ [itemRowAt items quantities rates dates hne i hi hd] } := by
  have h0 : 0 < rates.length := List.length_pos.mpr hne
  unfold writeItemsStep itemRowAt effectiveQuantity effectiveRate
  rw [index_of_lt rates 0 h0, index_of_lt dates i hd, index_of_lt items i hi]
  by_cases hq : i < quantities.length <;> by_cases hr : i < rates.length
  · rw [index_of_lt quantities i hq, index_of_lt rates i hr]
    simp [hq, hr, bind, Except.bind, pure, Except.pure]
  · rw [index_of_lt quantities i hq]
    simp [hq, hr, bind, Except.bind, pure, Except.pure]
  · rw [index_of_lt rates i hr]
    simp [hq, hr, bind, Except.bind, pure, Except.pure]
  · simp [hq, hr, bind, Except.bind, pure, Except.pure]

theorem writeItemsLoop_append (items : List String) (quantities rates : List ℚ)
    (dates : List Date) (l₁ l₂ : List Nat) (st : ItemsState) :
    writeItemsLoop items quantities rates dates (l₁ ++ l₂) st =
      match writeItemsLoop items quantities rates dates l₁ st with
      | .ok st' => writeItemsLoop items quantities rates dates l₂ st'
      | .error p => .error p := by
  induction l₁ generalizing st with
  | nil => simp [writeItemsLoop, pure, Except.pure]
  | cons i is ih =>
    simp only [List.cons_append, writeItemsLoop]
    cases writeItemsStep items quantities rates dates st i with
    | ok st' => simpa using ih st'
    | error p => rfl

theorem writeItemsLoop_range (items : List String) (quantities rates : List ℚ)
    (dates : List Date) (hne : rates ≠ []) (n : Nat) (hn : n ≤ items.length)
    (hd : n ≤ dates.length) :
    ∃ st, writeItemsLoop items quantities rates dates (List.range n)
        { totalCost := 0, totalHours := 0, rows := [] } = .ok st ∧
      st.totalCost = ∑ i in Finset.range n,
        effectiveQuantity quantities i * effectiveRate rates hne i ∧
      st.totalHours = ∑ i in Finset.range n, effectiveQuantity quantities i ∧
      st.rows.map (fun r => r.total) = (List.range n).map
        (fun i => effectiveQuantity quantities i * effectiveRate rates hne i) := by
  induction n with
  | zero => exact ⟨{ totalCost := 0, totalHours := 0, rows := [] }, rfl, by simp, by simp, by simp⟩
  | succ n ih =>
    obtain ⟨st, hst, hc, hh, hr⟩ := ih (by omega) (by omega)
    refine ⟨{ totalCost := st.totalCost + effectiveQuantity quantities n * effectiveRate rates hne n
              totalHours := st.totalHours + effectiveQuantity quantities n
              rows := st.rows ++ [itemRowAt items quantities rates dates hne n (by omega)
                (by omega)] }, ?_, ?_, ?_, ?_⟩
    · rw [List.range_succ, writeItemsLoop_append, hst]
      simp only [writeItemsLoop]
      rw [writeItemsStep_ok items quantities rates dates hne st n (by omega) (by omega)]
      rfl
    · simp [Finset.sum_range_succ, hc]
    · simp [Finset.sum_range_succ, hh]
    · simp [List.range_succ, hr, itemRowAt]

/-- C1: with a non-empty rate list and a date for every item, `writeItems`
returns `totalCost = Σ q(i)·r(i)` and `totalHours = Σ q(i)` over the indices of
`items`, where `q` falls back to `1` and `r` to the first rate; the amount of
row `i` is `q(i)·r(i)`. -/
theorem writeItems_totals (items : List String) (quantities rates : List ℚ)
    (dates : List Date) (hne : rates ≠ []) (hd : items.length ≤ dates.length) :
    ∃ st, writeItems items quantities rates dates = .ok st ∧
      st.totalCost = ∑ i in Finset.range items.length,
        effectiveQuantity quantities i * effectiveRate rates hne i ∧
      st.totalHours = ∑ i in Finset.range items.length, effectiveQuantity quantities i ∧
      st.rows.map (fun r => r.total) = (List.range items.length).map
        (fun i => effectiveQuantity quantities i * effectiveRate rates hne i) :=
  writeItemsLoop_range items quantities rates dates hne items.length le_rfl hd

/-- C1, at the specification's example: items `A`, `B` with quantities `2`, `3`
and the single rate `10` give amounts `20` and `30`, subtotal `50` and total
hours `5`. -/
theorem writeItems_totals_witness :
    ([10] : List ℚ) ≠ [] ∧
    ["A", "B"].length ≤ [Date.mk 2024 1 2, Date.mk 2024 1 3].length ∧
    ∃ st, writeItems ["A", "B"] [2, 3] [10] [Date.mk 2024 1 2, Date.mk 2024 1 3] = .ok st ∧
      st.totalCost = 50 ∧ st.totalHours = 5 ∧ st.rows.map (fun r => r.total) = [20, 30] := by
  refine ⟨by simp, by simp, ?_⟩
  obtain ⟨st, h, hc, hh, hr⟩ :=
    writeItems_totals ["A", "B"] [2, 3] [10] [Date.mk 2024 1 2, Date.mk 2024 1 3]
      (by simp) (by simp)
  refine ⟨st, h, ?_, ?_, ?_⟩
  · rw [hc]; norm_num [Finset.sum_range_succ, effectiveQuantity, effectiveRate]
  · rw [hh]; norm_num [Finset.sum_range_succ, effectiveQuantity]
  · rw [hr]; norm_num [List.range_succ, effectiveQuantity, effectiveRate]

/-- C10: two items with a single-entry dates array. The first row is built,
then `dates[1]` is out of range: `writeItems` does not return its totals. -/
theorem writeItems_short_dates_panics :
    writeItems ["A", "B"] [2, 3] [10] [Date.mk 2024 1 2] =
      .error (.indexOutOfRange 1 1) := by
  rfl

/-! ## Theorems: `writeTotals` -/

theorem taxRowLabel_getLast (taxName : String) (taxRate : ℚ) :
    (taxRowLabel taxName taxRate).data.getLast? = some '%' := by
  unfold taxRowLabel
  rw [String.data_append]
  exact List.getLast?_concat _

theorem taxRowLabel_ne_subtotalLabel (taxName : String) (taxRate : ℚ) :
    taxRowLabel taxName taxRate ≠ subtotalLabel := by
  intro h
  have h' := taxRowLabel_getLast taxName taxRate
  rw [h] at h'
  revert h'
  decide

theorem taxRowLabel_ne_discountLabel (taxName : String) (taxRate : ℚ) :
    taxRowLabel taxName taxRate ≠ discountLabel := by
  intro h
  have h' := taxRowLabel_getLast taxName taxRate
  rw [h] at h'
  revert h'
  decide

theorem taxRowLabel_ne_totalLabel (taxName : String) (taxRate : ℚ) :
    taxRowLabel taxName taxRate ≠ totalLabel := by
  intro h
  have h' := taxRowLabel_getLast taxName taxRate
  rw [h] at h'
  revert h'
  decide

theorem roundHalfEven_natCast (n : ℕ) : roundHalfEven (n : ℚ) = n := by
  simp [roundHalfEven]

theorem roundHalfEven_natCast_add_half (n : ℕ) :
    roundHalfEven ((n : ℚ) + 1 / 2) = if n % 2 = 0 then n else n + 1 := by
  have hf : Int.floor ((n : ℚ) + 1 / 2) = (n : ℤ) := by
    rw [Int.floor_eq_iff]
    constructor <;> push_cast <;> linarith
  unfold roundHalfEven
  simp only [hf, Int.toNat_ofNat]
  have e : (n : ℚ) + 1 / 2 - (n : ℚ) = 1 / 2 := by ring
  rw [e]
  simp

/-- Rounding to the nearest integer moves a value by at most one half. -/
theorem roundHalfEven_error (q : ℚ) (hq : 0 ≤ q) : |(roundHalfEven q : ℚ) - q| ≤ 1 / 2 := by
  have h0 : 0 ≤ Int.floor q := Int.floor_nonneg.mpr hq
  have hn : (((Int.floor q).toNat : ℕ) : ℚ) = ((Int.floor q : ℤ) : ℚ) := by
    have := Int.toNat_of_nonneg h0
    exact_mod_cast congrArg (fun z : ℤ => (z : ℚ)) this
  have hl : ((Int.floor q : ℤ) : ℚ) ≤ q := Int.floor_le q
  have hu : q < ((Int.floor q : ℤ) : ℚ) + 1 := Int.lt_floor_add_one q
  unfold roundHalfEven
  simp only
  rw [abs_le]
  split_ifs with h1 h2 h3
  · rw [hn] at h1 ⊢; constructor <;> linarith
  · rw [hn] at h2; push_cast; rw [hn]; constructor <;> linarith
  · rw [hn] at h1 h2 ⊢; constructor <;> linarith
  · rw [hn] at h1 h2; push_cast; rw [hn]; constructor <;> linarith

/-- Formatting with two decimals moves a value by at most half a cent. -/
theorem formatFloatF2_error (x : ℚ) : |formatFloatF2 x - x| ≤ 1 / 200 := by
  unfold formatFloatF2
  split_ifs with h
  · have := abs_le.mp (roundHalfEven_error (-x * 100) (by linarith))
    rw [abs_le]; constructor <;> linarith
  · have := abs_le.mp (roundHalfEven_error (x * 100) (by linarith))
    rw [abs_le]; constructor <;> linarith

/-- A whole number of cents is shown as it is. -/
theorem formatFloatF2_cents (n : ℕ) : formatFloatF2 ((n : ℚ) / 100) = (n : ℚ) / 100 := by
  have h : (n : ℚ) / 100 * 100 = (n : ℚ) := by ring
  have h0 : ¬ (n : ℚ) / 100 < 0 := not_lt.mpr (by positivity)
  rw [formatFloatF2, if_neg h0, h, roundHalfEven_natCast]

/-- A value that ends in half a cent is shown with the even cent next to it. -/
theorem formatFloatF2_half_cent (n : ℕ) :
    formatFloatF2 (((n : ℚ) + 1 / 2) / 100) =
      ((if n % 2 = 0 then n else n + 1 : ℕ) : ℚ) / 100 := by
  have h : ((n : ℚ) + 1 / 2) / 100 * 100 = (n : ℚ) + 1 / 2 := by ring
  have h0 : ¬ ((n : ℚ) + 1 / 2) / 100 < 0 := not_lt.mpr (by positivity)
  rw [formatFloatF2, if_neg h0, h, roundHalfEven_natCast_add_half]

/-- The rows of `writeTotals` on an empty page, case by case. -/
theorem writeTotals_rows_eq (subtotal discount taxRate : ℚ) (taxInclusive : Bool)
    (taxName : String) :
    writeTotals [] subtotal discount taxRate taxInclusive taxName =
      [{ label := subtotalLabel
         amount := if taxInclusive then subtotal - subtotal * taxRate else subtotal
         shown := formatFloatF2
           (if taxInclusive then subtotal - subtotal * taxRate else subtotal)
         bold := false }] ++
      (if 0 < taxRate then
        [{ label := taxRowLabel taxName taxRate, amount := subtotal * taxRate,
           shown := formatFloatF2 (subtotal * taxRate), bold := false }]
       else []) ++
      (if 0 < discount then
        [{ label := discountLabel, amount := discount, shown := formatFloatF2 discount,
           bold := false }]
       else []) ++
      [{ label := totalLabel
         amount := if taxInclusive = false ∧ 0 < taxRate then subtotal - discount + subtotal * taxRate
                   else subtotal - discount
         shown := formatFloatF2
           (if taxInclusive = false ∧ 0 < taxRate then subtotal - discount + subtotal * taxRate
            else subtotal - discount)
         bold := true }] := by
  have hb : (taxRowLabel taxName taxRate == totalLabel) = false := by
    simpa using taxRowLabel_ne_totalLabel taxName taxRate
  have h1 : (subtotalLabel == totalLabel) = false := by decide
  have h2 : (discountLabel == totalLabel) = false := by decide
  have h3 : (totalLabel == totalLabel) = true := by decide
  cases taxInclusive <;> by_cases ht : 0 < taxRate <;> by_cases hd : 0 < discount <;>
    simp [writeTotals, writeTotal, ht, hd, hb, h1, h2, h3]

/-- The last row `writeTotals` draws is the Total Due row. -/
theorem writeTotals_getLast (subtotal discount taxRate : ℚ) (taxInclusive : Bool)
    (taxName : String) :
    (writeTotals [] subtotal discount taxRate taxInclusive taxName).getLast? =
      some { label := totalLabel
             amount := if taxInclusive = false ∧ 0 < taxRate then
                         subtotal - discount + subtotal * taxRate
                       else subtotal - discount
             shown := formatFloatF2
               (if taxInclusive = false ∧ 0 < taxRate then
                  subtotal - discount + subtotal * taxRate
                else subtotal - discount)
             bold := true } := by
  rw [writeTotals_rows_eq, List.getLast?_concat]

/-- C2 as stated fails for a negative tax rate: with subtotal `100`, no
discount and tax rate `-1/10` both modes give Total Due `100`, so no pair of
Total Due rows differs by `100 * (-1/10)`. -/
theorem writeTotals_toggle_negative_rate :
    ¬ ∃ e i : TotalRow,
      (writeTotals [] 100 0 (-1 / 10) false "VAT").getLast? = some e ∧
      (writeTotals [] 100 0 (-1 / 10) true "VAT").getLast? = some i ∧
      e.amount - i.amount = 100 * (-1 / 10) := by
  rintro ⟨e, i, he, hi, h⟩
  rw [writeTotals_getLast] at he hi
  cases he
  cases hi
  norm_num at h

/-- C2, amended: for a tax rate that is not negative, the Total Due amount of
the tax-exclusive mode minus that of the tax-inclusive mode is
`subtotal * taxRate`. -/
theorem writeTotals_toggle_difference (subtotal discount taxRate : ℚ) (taxName : String)
    (ht : 0 ≤ taxRate) :
    ∃ e i : TotalRow,
      (writeTotals [] subtotal discount taxRate false taxName).getLast? = some e ∧
      e.label = totalLabel ∧
      (writeTotals [] subtotal discount taxRate true taxName).getLast? = some i ∧
      i.label = totalLabel ∧
      e.amount - i.amount = subtotal * taxRate := by
  refine ⟨_, _, writeTotals_getLast subtotal discount taxRate false taxName, rfl,
    writeTotals_getLast subtotal discount taxRate true taxName, rfl, ?_⟩
  rcases ht.lt_or_eq with h | h
  · simp [h]
  · simp [← h]

/-- C2, amended, at subtotal `100`, discount `5` and tax rate `1/5`: the two
Total Due amounts differ by `20`. -/
theorem writeTotals_toggle_difference_witness :
    (0 : ℚ) ≤ 1 / 5 ∧
    ∃ e i : TotalRow,
      (writeTotals [] 100 5 (1 / 5) false "VAT").getLast? = some e ∧
      e.label = totalLabel ∧
      (writeTotals [] 100 5 (1 / 5) true "VAT").getLast? = some i ∧
      i.label = totalLabel ∧
      e.amount - i.amount = 100 * (1 / 5) :=
  ⟨by norm_num, writeTotals_toggle_difference 100 5 (1 / 5) "VAT" (by norm_num)⟩

/-- C3: in tax-inclusive mode the first row is Subtotal with amount
`subtotal * (1 - taxRate)`, the row after it is the tax row with amount
`subtotal * taxRate` whenever `taxRate > 0`, and the last row is Total Due with
amount `subtotal - discount`. -/
theorem writeTotals_inclusive (subtotal discount taxRate : ℚ) (taxName : String) :
    (writeTotals [] subtotal discount taxRate true taxName).head? =
      some { label := subtotalLabel, amount := subtotal * (1 - taxRate),
             shown := formatFloatF2 (subtotal * (1 - taxRate)), bold := false } ∧
    (0 < taxRate →
      (writeTotals [] subtotal discount taxRate true taxName)[1]? =
        some { label := taxRowLabel taxName taxRate, amount := subtotal * taxRate,
               shown := formatFloatF2 (subtotal * taxRate), bold := false }) ∧
    (writeTotals [] subtotal discount taxRate true taxName).getLast? =
      some { label := totalLabel, amount := subtotal - discount,
             shown := formatFloatF2 (subtotal - discount), bold := true } := by
  refine ⟨?_, ?_, ?_⟩
  · rw [writeTotals_rows_eq]
    simp [mul_sub]
  · intro ht
    rw [writeTotals_rows_eq]
    simp [ht]
  · rw [writeTotals_getLast]
    simp

/-- C3 at the specification's example: subtotal `100`, tax rate `1/10` and no
discount show Subtotal `90`, tax `10` and Total Due `100`. -/
theorem writeTotals_inclusive_witness :
    (writeTotals [] 100 0 (1 / 10) true "VAT").head? =
      some { label := "Subtotal", amount := 90, shown := 90, bold := false } ∧
    (writeTotals [] 100 0 (1 / 10) true "VAT")[1]? =
      some { label := "VAT 10%", amount := 10, shown := 10, bold := false } ∧
    (writeTotals [] 100 0 (1 / 10) true "VAT").getLast? =
      some { label := "Total Due", amount := 100, shown := 100, bold := true } := by
  obtain ⟨h1, h2, h3⟩ := writeTotals_inclusive 100 0 (1 / 10) "VAT"
  have hl : taxRowLabel "VAT" (1 / 10) = "VAT 10%" := by
    have h10 : Int.toNat 10 = 10 := rfl
    norm_num [taxRowLabel, formatF0, roundHalfEven, h10]
    decide
  have f90 : formatFloatF2 90 = 90 := by
    have h := formatFloatF2_cents 9000
    norm_num at h
    exact h
  have f10 : formatFloatF2 10 = 10 := by
    have h := formatFloatF2_cents 1000
    norm_num at h
    exact h
  have f100 : formatFloatF2 100 = 100 := by
    have h := formatFloatF2_cents 10000
    norm_num at h
    exact h
  refine ⟨?_, ?_, ?_⟩
  · rw [h1]; norm_num [subtotalLabel, f90]
  · rw [h2 (by norm_num), hl]; norm_num [f10]
  · rw [h3]; norm_num [totalLabel, f100]

/-- C4: the rows of `writeTotals` are, in this order, the Subtotal row, the tax
row if `taxRate > 0`, the Discount row if the discount amount is `> 0`, and the
Total Due row; a tax row is present iff `taxRate > 0` and a Discount row iff
`discount > 0`; a tax rate of `0` gives no tax row and, in `generateCmd.RunE`,
a discount rate of `0` gives no Discount row. -/
theorem writeTotals_row_sequence (subtotal discount taxRate : ℚ) (taxInclusive : Bool)
    (taxName : String) :
    (writeTotals [] subtotal discount taxRate taxInclusive taxName).map (fun r => r.label) =
      [subtotalLabel] ++ (if 0 < taxRate then [taxRowLabel taxName taxRate] else []) ++
        (if 0 < discount then [discountLabel] else []) ++ [totalLabel] ∧
    ((∃ r ∈ writeTotals [] subtotal discount taxRate taxInclusive taxName,
        r.label = taxRowLabel taxName taxRate) ↔ 0 < taxRate) ∧
    ((∃ r ∈ writeTotals [] subtotal discount taxRate taxInclusive taxName,
        r.label = discountLabel) ↔ 0 < discount) ∧
    (writeTotals [] subtotal discount 0 taxInclusive taxName).map (fun r => r.label) =
      [subtotalLabel] ++ (if 0 < discount then [discountLabel] else []) ++ [totalLabel] ∧
    (runETotals subtotal 0 taxRate taxInclusive taxName).map (fun r => r.label) =
      [subtotalLabel] ++ (if 0 < taxRate then [taxRowLabel taxName taxRate] else []) ++
        [totalLabel] := by
  have n1 := taxRowLabel_ne_subtotalLabel taxName taxRate
  have n2 := taxRowLabel_ne_discountLabel taxName taxRate
  have n3 := taxRowLabel_ne_totalLabel taxName taxRate
  have d1 : subtotalLabel ≠ discountLabel := by decide
  have d3 : totalLabel ≠ discountLabel := by decide
  refine ⟨?_, ?_, ?_, ?_, ?_⟩
  · rw [writeTotals_rows_eq]
    by_cases ht : 0 < taxRate <;> by_cases hd : 0 < discount <;> simp [ht, hd]
  · rw [writeTotals_rows_eq]
    by_cases ht : 0 < taxRate <;> by_cases hd : 0 < discount <;>
      simp [ht, hd, n1.symm, n2.symm, n3.symm]
  · rw [writeTotals_rows_eq]
    by_cases ht : 0 < taxRate <;> by_cases hd : 0 < discount <;>
      simp [ht, hd, n2, d1, d3]
  · rw [writeTotals_rows_eq]
    by_cases hd : 0 < discount <;> simp [hd]
  · rw [runETotals, writeTotals_rows_eq]
    by_cases ht : 0 < taxRate <;> simp [ht]

/-- The values `writeTotals` gives to its rows, row by row. -/
theorem rowAmount_writeTotals (subtotal discount taxRate : ℚ) (taxInclusive : Bool)
    (taxName : String) :
    rowAmount (writeTotals [] subtotal discount taxRate taxInclusive taxName) subtotalLabel =
      some (if taxInclusive then subtotal - subtotal * taxRate else subtotal) ∧
    rowAmount (writeTotals [] subtotal discount taxRate taxInclusive taxName)
        (taxRowLabel taxName taxRate) =
      (if 0 < taxRate then some (subtotal * taxRate) else none) ∧
    rowAmount (writeTotals [] subtotal discount taxRate taxInclusive taxName) discountLabel =
      (if 0 < discount then some discount else none) ∧
    rowAmount (writeTotals [] subtotal discount taxRate taxInclusive taxName) totalLabel =
      some (if taxInclusive = false ∧ 0 < taxRate then subtotal - discount + subtotal * taxRate
            else subtotal - discount) := by
  have n1 : (subtotalLabel == taxRowLabel taxName taxRate) = false := by
    simpa using (taxRowLabel_ne_subtotalLabel taxName taxRate).symm
  have n2 : (discountLabel == taxRowLabel taxName taxRate) = false := by
    simpa using (taxRowLabel_ne_discountLabel taxName taxRate).symm
  have n3 : (totalLabel == taxRowLabel taxName taxRate) = false := by
    simpa using (taxRowLabel_ne_totalLabel taxName taxRate).symm
  have m2 : (taxRowLabel taxName taxRate == discountLabel) = false := by
    simpa using taxRowLabel_ne_discountLabel taxName taxRate
  have m3 : (taxRowLabel taxName taxRate == totalLabel) = false := by
    simpa using taxRowLabel_ne_totalLabel taxName taxRate
  have a1 : (subtotalLabel == subtotalLabel) = true := by decide
  have a2 : (subtotalLabel == totalLabel) = false := by decide
  have a3 : (subtotalLabel == discountLabel) = false := by decide
  have a4 : (discountLabel == totalLabel) = false := by decide
  have a5 : (discountLabel == discountLabel) = true := by decide
  have a6 : (totalLabel == totalLabel) = true := by decide
  have a7 : (totalLabel == discountLabel) = false := by decide
  have a8 : (taxRowLabel taxName taxRate == taxRowLabel taxName taxRate) = true := by simp
  rw [writeTotals_rows_eq]
  by_cases h1 : 0 < taxRate <;> by_cases h2 : 0 < discount <;>
    simp [rowAmount, List.find?, n1, n2, n3, m2, m3, a1, a2, a3, a4, a5, a6, a7, a8, h1, h2]

/-- The two-decimal amounts the rows of `writeTotals` show, row by row. -/
theorem rowShown_writeTotals (subtotal discount taxRate : ℚ) (taxInclusive : Bool)
    (taxName : String) :
    rowShown (writeTotals [] subtotal discount taxRate taxInclusive taxName) subtotalLabel =
      some (formatFloatF2 (if taxInclusive then subtotal - subtotal * taxRate else subtotal)) ∧
    rowShown (writeTotals [] subtotal discount taxRate taxInclusive taxName)
        (taxRowLabel taxName taxRate) =
      (if 0 < taxRate then some (formatFloatF2 (subtotal * taxRate)) else none) ∧
    rowShown (writeTotals [] subtotal discount taxRate taxInclusive taxName) discountLabel =
      (if 0 < discount then some (formatFloatF2 discount) else none) ∧
    rowShown (writeTotals [] subtotal discount taxRate taxInclusive taxName) totalLabel =
      some (formatFloatF2
        (if taxInclusive = false ∧ 0 < taxRate then subtotal - discount + subtotal * taxRate
         else subtotal - discount)) := by
  have n1 : (subtotalLabel == taxRowLabel taxName taxRate) = false := by
    simpa using (taxRowLabel_ne_subtotalLabel taxName taxRate).symm
  have n2 : (discountLabel == taxRowLabel taxName taxRate) = false := by
    simpa using (taxRowLabel_ne_discountLabel taxName taxRate).symm
  have n3 : (totalLabel == taxRowLabel taxName taxRate) = false := by
    simpa using (taxRowLabel_ne_totalLabel taxName taxRate).symm
  have m2 : (taxRowLabel taxName taxRate == discountLabel) = false := by
    simpa using taxRowLabel_ne_discountLabel taxName taxRate
  have m3 : (taxRowLabel taxName taxRate == totalLabel) = false := by
    simpa using taxRowLabel_ne_totalLabel taxName taxRate
  have a1 : (subtotalLabel == subtotalLabel) = true := by decide
  have a2 : (subtotalLabel == totalLabel) = false := by decide
  have a3 : (subtotalLabel == discountLabel) = false := by decide
  have a4 : (discountLabel == totalLabel) = false := by decide
  have a5 : (discountLabel == discountLabel) = true := by decide
  have a6 : (totalLabel == totalLabel) = true := by decide
  have a7 : (totalLabel == discountLabel) = false := by decide
  have a8 : (taxRowLabel taxName taxRate == taxRowLabel taxName taxRate) = true := by simp
  rw [writeTotals_rows_eq]
  by_cases h1 : 0 < taxRate <;> by_cases h2 : 0 < discount <;>
    simp [rowShown, List.find?, n1, n2, n3, m2, m3, a1, a2, a3, a4, a5, a6, a7, a8, h1, h2]

/-- The values given to the rows add up: for a discount and a tax rate that are
not negative, Subtotal plus tax (when drawn) minus Discount (when drawn) is
Total Due, before any row is formatted. -/
theorem writeTotals_values_add_up (subtotal discount taxRate : ℚ) (taxInclusive : Bool)
    (hd : 0 ≤ discount) (ht : 0 ≤ taxRate) :
    (if taxInclusive then subtotal - subtotal * taxRate else subtotal) +
        (if 0 < taxRate then subtotal * taxRate else 0) -
        (if 0 < discount then discount else 0) =
      (if taxInclusive = false ∧ 0 < taxRate then subtotal - discount + subtotal * taxRate
       else subtotal - discount) := by
  rcases ht.lt_or_eq with h1 | h1 <;> rcases hd.lt_or_eq with h2 | h2
  · cases taxInclusive
    · simp [h1, h2]; ring
    · simp [h1, h2]
  · subst h2
    cases taxInclusive <;> simp [h1]
  · subst h1
    cases taxInclusive <;> simp [h2]
  · subst h1
    subst h2
    cases taxInclusive <;> simp

/-- C11 as stated fails for the amounts the rows show: at subtotal `87.5`,
discount `8.75` and tax rate `0.21` in tax-exclusive mode the rows show `87.50`,
`18.38`, `8.75` and `97.12`, and `87.50 + 18.38 - 8.75` is `97.13`. -/
theorem writeTotals_shown_rows_off_by_a_cent :
    rowShown (writeTotals [] (175 / 2) (35 / 4) (21 / 100) false "VAT") subtotalLabel =
      some (175 / 2) ∧
    rowShown (writeTotals [] (175 / 2) (35 / 4) (21 / 100) false "VAT")
      (taxRowLabel "VAT" (21 / 100)) = some (919 / 50) ∧
    rowShown (writeTotals [] (175 / 2) (35 / 4) (21 / 100) false "VAT") discountLabel =
      some (35 / 4) ∧
    rowShown (writeTotals [] (175 / 2) (35 / 4) (21 / 100) false "VAT") totalLabel =
      some (2428 / 25) ∧
    (175 / 2 : ℚ) + 919 / 50 - 35 / 4 ≠ 2428 / 25 := by
  obtain ⟨hs, ht, hd, hdue⟩ :=
    rowShown_writeTotals (175 / 2) (35 / 4) (21 / 100) false "VAT"
  have f1 : formatFloatF2 (175 / 2) = 175 / 2 := by
    have h := formatFloatF2_cents 8750
    norm_num at h
    exact h
  have f2 : formatFloatF2 (147 / 8) = 919 / 50 := by
    have h := formatFloatF2_half_cent 1837
    norm_num at h
    exact h
  have f3 : formatFloatF2 (35 / 4) = 35 / 4 := by
    have h := formatFloatF2_cents 875
    norm_num at h
    exact h
  have f4 : formatFloatF2 (777 / 8) = 2428 / 25 := by
    have h := formatFloatF2_half_cent 9712
    norm_num at h
    exact h
  refine ⟨?_, ?_, ?_, ?_, by norm_num⟩
  · rw [hs]; norm_num [f1]
  · rw [ht]; norm_num [f2]
  · rw [hd]; norm_num [f3]
  · rw [hdue]; norm_num [f4]

/-- C11, amended: for a discount and a tax rate that are not negative, in both
modes, the values `writeTotals` gives to the rows satisfy Subtotal + tax (when
drawn) - Discount (when drawn) = Total Due exactly, and the two-decimal amounts
the rows show satisfy it up to rounding, within `0.02`. -/
theorem writeTotals_rows_consistent (subtotal discount taxRate : ℚ) (taxInclusive : Bool)
    (taxName : String) (hd : 0 ≤ discount) (ht : 0 ≤ taxRate) :
    (∃ sub due : ℚ,
      rowAmount (writeTotals [] subtotal discount taxRate taxInclusive taxName)
        subtotalLabel = some sub ∧
      rowAmount (writeTotals [] subtotal discount taxRate taxInclusive taxName)
        totalLabel = some due ∧
      sub +
        (rowAmount (writeTotals [] subtotal discount taxRate taxInclusive taxName)
          (taxRowLabel taxName taxRate)).getD 0 -
        (rowAmount (writeTotals [] subtotal discount taxRate taxInclusive taxName)
          discountLabel).getD 0 = due) ∧
    (∃ sub due : ℚ,
      rowShown (writeTotals [] subtotal discount taxRate taxInclusive taxName)
        subtotalLabel = some sub ∧
      rowShown (writeTotals [] subtotal discount taxRate taxInclusive taxName)
        totalLabel = some due ∧
      |sub +
        (rowShown (writeTotals [] subtotal discount taxRate taxInclusive taxName)
          (taxRowLabel taxName taxRate)).getD 0 -
        (rowShown (writeTotals [] subtotal discount taxRate taxInclusive taxName)
          discountLabel).getD 0 - due| ≤ 1 / 50) := by
  have hsum := writeTotals_values_add_up subtotal discount taxRate taxInclusive hd ht
  obtain ⟨asub, atax, ad, adue⟩ :=
    rowAmount_writeTotals subtotal discount taxRate taxInclusive taxName
  obtain ⟨ss, st, sd, sdue⟩ :=
    rowShown_writeTotals subtotal discount taxRate taxInclusive taxName
  constructor
  · refine ⟨_, _, asub, adue, ?_⟩
    rw [atax, ad, ← hsum]
    by_cases h1 : 0 < taxRate <;> by_cases h2 : 0 < discount <;> simp [h1, h2]
  · refine ⟨_, _, ss, sdue, ?_⟩
    rw [st, sd, ← hsum]
    have e1 := abs_le.mp (formatFloatF2_error
      (if taxInclusive then subtotal - subtotal * taxRate else subtotal))
    have e2 := abs_le.mp (formatFloatF2_error (subtotal * taxRate))
    have e3 := abs_le.mp (formatFloatF2_error discount)
    have e4 := abs_le.mp (formatFloatF2_error
      ((if taxInclusive then subtotal - subtotal * taxRate else subtotal) +
        (if 0 < taxRate then subtotal * taxRate else 0) -
        (if 0 < discount then discount else 0)))
    rw [abs_le]
    by_cases h1 : 0 < taxRate <;> by_cases h2 : 0 < discount <;>
      simp only [h1, h2, if_true, if_false, Option.getD_some, Option.getD_none] at e4 ⊢ <;>
      constructor <;> linarith

/-- C11, amended, at subtotal `87.5`, discount `8.75` and tax rate `0.21` in
tax-exclusive mode, where the shown amounts are one cent apart. -/
theorem writeTotals_rows_consistent_witness :
    (0 : ℚ) ≤ 35 / 4 ∧ (0 : ℚ) ≤ 21 / 100 ∧
    (∃ sub due : ℚ,
      rowAmount (writeTotals [] (175 / 2) (35 / 4) (21 / 100) false "VAT")
        subtotalLabel = some sub ∧
      rowAmount (writeTotals [] (175 / 2) (35 / 4) (21 / 100) false "VAT")
        totalLabel = some due ∧
      sub +
        (rowAmount (writeTotals [] (175 / 2) (35 / 4) (21 / 100) false "VAT")
          (taxRowLabel "VAT" (21 / 100))).getD 0 -
        (rowAmount (writeTotals [] (175 / 2) (35 / 4) (21 / 100) false "VAT")
          discountLabel).getD 0 = due) ∧
    (∃ sub due : ℚ,
      rowShown (writeTotals [] (175 / 2) (35 / 4) (21 / 100) false "VAT")
        subtotalLabel = some sub ∧
      rowShown (writeTotals [] (175 / 2) (35 / 4) (21 / 100) false "VAT")
        totalLabel = some due ∧
      |sub +
        (rowShown (writeTotals [] (175 / 2) (35 / 4) (21 / 100) false "VAT")
          (taxRowLabel "VAT" (21 / 100))).getD 0 -
        (rowShown (writeTotals [] (175 / 2) (35 / 4) (21 / 100) false "VAT")
          discountLabel).getD 0 - due| ≤ 1 / 50) :=
  ⟨by norm_num, by norm_num,
    writeTotals_rows_consistent (175 / 2) (35 / 4) (21 / 100) false "VAT"
      (by norm_num) (by norm_num)⟩

/-! ## Theorems: `readWorklogCsv` -/

theorem digitsValue_no_colon (cs : List Char) (acc n : Nat)
    (h : digitsValue cs acc = some n) : ':' ∉ cs := by
  induction cs generalizing acc with
  | nil => simp
  | cons c cs ih =>
    unfold digitsValue at h
    by_cases hc : c.isDigit = true
    · rw [if_pos hc] at h
      have hne : ':' ≠ c := by
        rintro rfl
        revert hc
        decide
      simpa [hne] using ih _ h
    · rw [if_neg hc] at h
      cases h

theorem stripSign_no_colon (cs : List Char) (h : ':' ∉ (stripSign cs).2) : ':' ∉ cs := by
  cases cs with
  | nil => simp
  | cons c rest =>
    by_cases h1 : c = '-'
    · subst h1
      simp only [stripSign, if_true] at h
      simpa using h
    · by_cases h2 : c = '+'
      · subst h2
        simp only [stripSign, if_neg h1, if_true] at h
        simpa using h
      · simpa [stripSign, h1, h2] using h

theorem strconvAtoi_no_colon (s : String) (v : Int) (h : strconvAtoi s = some v) :
    ':' ∉ s.data := by
  apply stripSign_no_colon
  unfold strconvAtoi at h
  simp only at h
  split at h
  · cases h
  · split at h
    · cases h
    · rename_i n hn
      exact digitsValue_no_colon _ _ _ hn

theorem splitChars_of_not_mem (sep : Char) (cs : List Char) (h : sep ∉ cs) :
    splitChars sep cs = [cs] := by
  induction cs with
  | nil => rfl
  | cons c cs ih =>
    have hc : c ≠ sep := fun e => h (by simp [e])
    have ht : sep ∉ cs := fun e => h (by simp [e])
    simp [splitChars, hc, ih ht]

theorem splitChars_append_sep (sep : Char) (a b : List Char) (h : sep ∉ a) :
    splitChars sep (a ++ sep :: b) = a :: splitChars sep b := by
  induction a with
  | nil => simp [splitChars]
  | cons c cs ih =>
    have hc : c ≠ sep := fun e => h (by simp [e])
    have ht : sep ∉ cs := fun e => h (by simp [e])
    simp [splitChars, hc, ih ht]

theorem stringsSplit_duration (hs ms : String) (hh : ':' ∉ hs.data) (hm : ':' ∉ ms.data) :
    stringsSplit (hs ++ ":" ++ ms) ':' = [hs, ms] := by
  have hdata : (hs ++ ":" ++ ms).data = hs.data ++ ':' :: ms.data := by
    simp [String.data_append]
  unfold stringsSplit
  rw [hdata, splitChars_append_sep _ _ _ hh, splitChars_of_not_mem _ _ hm]
  rfl

theorem readRecord_wellFormed (r : WorklogRow) (h : r.WellFormed) :
    readRecord r.record = .ok (.ok r.entry) := by
  obtain ⟨hd, hh, hm⟩ := h
  have hsplit := stringsSplit_duration r.hoursText r.minutesText
    (strconvAtoi_no_colon _ _ hh) (strconvAtoi_no_colon _ _ hm)
  simp [readRecord, WorklogRow.record, WorklogRow.entry, index, hd, hsplit, hh, hm]

theorem readWorklogLoop_wellFormed (rows : List WorklogRow) (rest : List (List String))
    (entries : List WorklogEntry) (h : ∀ r ∈ rows, r.WellFormed) :
    readWorklogLoop (rows.map WorklogRow.record ++ rest) entries =
      readWorklogLoop rest (entries ++ rows.map WorklogRow.entry) := by
  induction rows generalizing entries with
  | nil => simp
  | cons r rows ih =>
    have hr := readRecord_wellFormed r (h r (by simp))
    show readWorklogLoop (r.record :: (rows.map WorklogRow.record ++ rest)) entries = _
    rw [readWorklogLoop]
    simp only [hr]
    rw [ih _ (fun r' hr' => h r' (by simp [hr']))]
    simp

theorem checkHeaders_expHeaders : checkHeaders expHeaders 0 = .ok none := by
  rfl

/-- C5: when the first record is the expected header and every data row has a
date text, an hours text and a minutes text that parse, `readWorklogCsv`
returns no error and one entry per data row, in the order of the rows, each
with the row's date, `H + M/60` hours and the fifth field as description. -/
theorem readWorklogCsv_wellFormed (rows : List WorklogRow) (h : ∀ r ∈ rows, r.WellFormed) :
    readWorklogCsv (expHeaders :: rows.map WorklogRow.record) =
      .ok (rows.map WorklogRow.entry, none) := by
  have hl := readWorklogLoop_wellFormed rows [] [] h
  simp only [List.append_nil, List.nil_append] at hl
  simp [readWorklogCsv, checkHeaders_expHeaders, hl, readWorklogLoop]

/-- C5 at two rows with durations `7:30` and `1:15`: two entries in row order,
with `7.5` and `1.25` hours. -/
theorem readWorklogCsv_wellFormed_witness :
    (∀ r ∈ [WorklogRow.mk "2024-01-02" "09:00" "16:30" "7" "30" "Work" ⟨2024, 1, 2⟩ 7 30,
            WorklogRow.mk "2024-01-03" "09:00" "10:15" "1" "15" "Review" ⟨2024, 1, 3⟩ 1 15],
        r.WellFormed) ∧
    readWorklogCsv [["Date", "Start", "End", "Worked", "Titles"],
        ["2024-01-02", "09:00", "16:30", "7:30", "Work"],
        ["2024-01-03", "09:00", "10:15", "1:15", "Review"]] =
      .ok ([{ Date := ⟨2024, 1, 2⟩, Hours := 15 / 2, Description := "Work" },
            { Date := ⟨2024, 1, 3⟩, Hours := 5 / 4, Description := "Review" }], none) := by
  have hwf : ∀ r ∈ [WorklogRow.mk "2024-01-02" "09:00" "16:30" "7" "30" "Work" ⟨2024, 1, 2⟩ 7 30,
      WorklogRow.mk "2024-01-03" "09:00" "10:15" "1" "15" "Review" ⟨2024, 1, 3⟩ 1 15],
      r.WellFormed := by
    intro r hr
    simp only [List.mem_cons, List.mem_singleton, List.not_mem_nil, or_false] at hr
    rcases hr with rfl | rfl <;> exact ⟨by decide, by decide, by decide⟩
  refine ⟨hwf, ?_⟩
  have h := readWorklogCsv_wellFormed _ hwf
  have e : List.map WorklogRow.entry
      [WorklogRow.mk "2024-01-02" "09:00" "16:30" "7" "30" "Work" ⟨2024, 1, 2⟩ 7 30,
       WorklogRow.mk "2024-01-03" "09:00" "10:15" "1" "15" "Review" ⟨2024, 1, 3⟩ 1 15] =
      [{ Date := ⟨2024, 1, 2⟩, Hours := 15 / 2, Description := "Work" },
       { Date := ⟨2024, 1, 3⟩, Hours := 5 / 4, Description := "Review" }] := by
    norm_num [WorklogRow.entry]
  rw [e] at h
  exact h

/-- A first record that agrees with the expected header up to a position below
five and has another name there is rejected, with no entries. -/
theorem readWorklogCsv_header_mismatch (n : Nat) (hn : n < 5) (name : String)
    (rest : List String) (rows : List (List String))
    (hname : name ≠ expHeaders.getD n "") :
    readWorklogCsv ((expHeaders.take n ++ name :: rest) :: rows) =
      .ok ([], some .unexpectedHeaders) := by
  interval_cases n <;>
    simp_all [readWorklogCsv, checkHeaders, expHeaders, index]

/-- C6: a first record that is a proper prefix of the expected header passes
the header check (no error is returned), and a first record with a sixth field
after the five expected names stops the program at `expHeaders[5]`. -/
theorem readWorklogCsv_header_length_unchecked :
    readWorklogCsv [["Date", "Start", "End", "Worked"]] = .ok ([], none) ∧
    readWorklogCsv [["Date", "Start", "End", "Worked", "Titles", "Notes"]] =
      .error (.indexOutOfRange 5 5) :=
  ⟨rfl, rfl⟩

theorem stringsSplit_ne_nil (s : String) (sep : Char) : stringsSplit s sep ≠ [] := by
  have h : ∀ cs : List Char, splitChars sep cs ≠ [] := by
    intro cs
    cases cs with
    | nil => simp [splitChars]
    | cons c cs =>
      unfold splitChars
      split
      · simp
      · split <;> simp
  simpa [stringsSplit] using h s.data

theorem readRecord_malformed (d s e w t : String)
    (hbad : timeParse d = none ∨ strconvAtoi ((stringsSplit w ':').headD "") = none ∨
      ∃ ms, (stringsSplit w ':')[1]? = some ms ∧ strconvAtoi ms = none) :
    ∃ err, readRecord [d, s, e, w, t] = .ok (.error err) := by
  cases hd : timeParse d with
  | none => exact ⟨.parseTime d, by simp [readRecord, index, hd]⟩
  | some date =>
    cases hsp : stringsSplit w ':' with
    | nil => exact absurd hsp (stringsSplit_ne_nil w ':')
    | cons d0 tl =>
      cases h0 : strconvAtoi d0 with
      | none => exact ⟨.atoi d0, by simp [readRecord, index, hd, hsp, h0]⟩
      | some hours =>
        rcases hbad with hb | hb | ⟨ms, hms, hb⟩
        · rw [hd] at hb; cases hb
        · rw [hsp] at hb
          simp only [List.headD_cons] at hb
          rw [h0] at hb; cases hb
        · rw [hsp] at hms
          cases tl with
          | nil => simp at hms
          | cons d1 tl' =>
            simp only [List.getElem?_cons_succ, List.getElem?_cons_zero, Option.some.injEq] at hms
            subst hms
            exact ⟨.atoi d1, by simp [readRecord, index, hd, hsp, h0, hb]⟩

/-- C7 as stated fails: a well-formed row followed by a row with a malformed
date returns the error together with the entry of the first row, not an empty
list. -/
theorem readWorklogCsv_error_returns_partial :
    ∃ entry err, readWorklogCsv [["Date", "Start", "End", "Worked", "Titles"],
        ["2024-01-02", "09:00", "16:30", "7:30", "Work"],
        ["02/01/2024", "09:00", "10:00", "1:00", "More"]] = .ok ([entry], some err) ∧
      entry.Description = "Work" ∧ [entry] ≠ [] :=
  ⟨_, _, rfl, rfl, by simp⟩

/-- C7, amended: after a valid header and well-formed rows, a five-field row
with a malformed date or a malformed duration component makes `readWorklogCsv`
return an error together with exactly the entries of the rows before it. -/
theorem readWorklogCsv_error_keeps_prefix (rows : List WorklogRow)
    (h : ∀ r ∈ rows, r.WellFormed) (d s e w t : String) (rest : List (List String))
    (hbad : timeParse d = none ∨ strconvAtoi ((stringsSplit w ':').headD "") = none ∨
      ∃ ms, (stringsSplit w ':')[1]? = some ms ∧ strconvAtoi ms = none) :
    ∃ err, readWorklogCsv
        (expHeaders :: (rows.map WorklogRow.record ++ [d, s, e, w, t] :: rest)) =
      .ok (rows.map WorklogRow.entry, some err) := by
  obtain ⟨err, herr⟩ := readRecord_malformed d s e w t hbad
  refine ⟨err, ?_⟩
  have hl := readWorklogLoop_wellFormed rows ([d, s, e, w, t] :: rest) [] h
  simp only [List.nil_append] at hl
  simp [readWorklogCsv, checkHeaders_expHeaders, hl, readWorklogLoop, herr]

/-- C7, amended, at one well-formed row followed by a row whose minutes are
not an integer: the error comes with the one entry built before it. -/
theorem readWorklogCsv_error_keeps_prefix_witness :
    (∀ r ∈ [WorklogRow.mk "2024-01-02" "09:00" "16:30" "7" "30" "Work" ⟨2024, 1, 2⟩ 7 30],
        r.WellFormed) ∧
    (timeParse "2024-01-03" = none ∨
      strconvAtoi ((stringsSplit "1:xx" ':').headD "") = none ∨
      ∃ ms, (stringsSplit "1:xx" ':')[1]? = some ms ∧ strconvAtoi ms = none) ∧
    ∃ err, readWorklogCsv
        (expHeaders ::
          ([WorklogRow.mk "2024-01-02" "09:00" "16:30" "7" "30" "Work" ⟨2024, 1, 2⟩ 7 30].map
              WorklogRow.record ++
            ["2024-01-03", "09:00", "10:00", "1:xx", "More"] :: [])) =
      .ok ([WorklogRow.mk "2024-01-02" "09:00" "16:30" "7" "30" "Work" ⟨2024, 1, 2⟩ 7 30].map
        WorklogRow.entry, some err) := by
  have hwf : ∀ r ∈ [WorklogRow.mk "2024-01-02" "09:00" "16:30" "7" "30" "Work" ⟨2024, 1, 2⟩ 7 30],
      r.WellFormed := by
    intro r hr
    simp only [List.mem_singleton] at hr
    subst hr
    exact ⟨by decide, by decide, by decide⟩
  have hbad : timeParse "2024-01-03" = none ∨
      strconvAtoi ((stringsSplit "1:xx" ':').headD "") = none ∨
      ∃ ms, (stringsSplit "1:xx" ':')[1]? = some ms ∧ strconvAtoi ms = none :=
    Or.inr (Or.inr ⟨"xx", by decide, by decide⟩)
  exact ⟨hwf, hbad, readWorklogCsv_error_keeps_prefix _ hwf _ _ _ _ _ [] hbad⟩

/-- C8: a five-field row whose duration is `7`, with no `:`. The hours parse,
then `durationValues[1]` is out of range: no error value is returned. -/
theorem readWorklogCsv_duration_without_colon :
    readWorklogCsv [["Date", "Start", "End", "Worked", "Titles"],
        ["2024-01-02", "09:00", "16:00", "7", "Work"]] = .error (.indexOutOfRange 1 1) :=
  rfl

/-! ## Theorems: `writeDetails` -/

theorem foldl_append_singleton {α β : Type} (f : α → β) (l : List α) (init : List β) :
    l.foldl (fun acc x => acc ++ [f x]) init = init ++ l.map f := by
  induction l generalizing init with
  | nil => simp
  | cons a l ih => simp [ih]

theorem writeDetails_eq (details : List (String × String)) :
    writeDetails [] details =
      (sortStrings (details.map Prod.fst)).map (fun k => k ++ ": " ++ mapIndex details k) := by
  unfold writeDetails
  simp only [foldl_append_singleton, List.nil_append]

theorem lookup_of_mem_nodup (details : List (String × String))
    (hmap : (details.map Prod.fst).Nodup) (k v : String) (hkv : (k, v) ∈ details) :
    details.lookup k = some v := by
  induction details with
  | nil => cases hkv
  | cons kv rest ih =>
    obtain ⟨k', v'⟩ := kv
    simp only [List.map_cons, List.nodup_cons] at hmap
    rcases List.mem_cons.mp hkv with h | h
    · cases h
      simp
    · have hne : k ≠ k' := by
        rintro rfl
        exact hmap.1 (List.mem_map_of_mem Prod.fst h)
      rw [List.lookup_cons]
      have hb : (k == k') = false := by simpa using hne
      rw [hb]
      exact ih hmap.2 h

theorem sortStrings_sorted (keys : List String) :
    (sortStrings keys).Sorted (fun a b => a ≤ b) :=
  List.sorted_insertionSort _ keys

theorem sortStrings_perm (keys : List String) : (sortStrings keys).Perm keys :=
  List.perm_insertionSort _ keys

theorem sortStrings_eq_of_perm (k₁ k₂ : List String) (h : k₁.Perm k₂) :
    sortStrings k₁ = sortStrings k₂ :=
  List.eq_of_perm_of_sorted
    (((sortStrings_perm k₁).trans h).trans (sortStrings_perm k₂).symm)
    (sortStrings_sorted k₁) (sortStrings_sorted k₂)

theorem mapIndex_of_mem (details : List (String × String))
    (hmap : (details.map Prod.fst).Nodup) (k v : String) (hkv : (k, v) ∈ details) :
    mapIndex details k = v := by
  simp [mapIndex, lookup_of_mem_nodup details hmap k v hkv]

theorem sortedEntries_perm (details : List (String × String))
    (hmap : (details.map Prod.fst).Nodup) :
    ((sortStrings (details.map Prod.fst)).map (fun k => (k, mapIndex details k))).Perm
      details := by
  have hkeys : (sortStrings (details.map Prod.fst)).Nodup :=
    (sortStrings_perm _).nodup_iff.mpr hmap
  have hinj : Function.Injective (fun k : String => (k, mapIndex details k)) := by
    intro a b hab
    exact congrArg Prod.fst hab
  refine (List.perm_ext_iff_of_nodup (hkeys.map hinj) (List.Nodup.of_map Prod.fst hmap)).mpr ?_
  rintro ⟨k, v⟩
  constructor
  · intro h
    obtain ⟨k', hk', heq⟩ := List.mem_map.mp h
    cases heq
    have hk : k ∈ details.map Prod.fst := (sortStrings_perm _).mem_iff.mp hk'
    obtain ⟨⟨k₀, v₀⟩, hmem, hfst⟩ := List.mem_map.mp hk
    simp only at hfst
    subst hfst
    rw [mapIndex_of_mem details hmap _ _ hmem]
    exact hmem
  · intro h
    refine List.mem_map.mpr ⟨k, ?_, ?_⟩
    · exact (sortStrings_perm _).mem_iff.mpr (List.mem_map_of_mem Prod.fst h)
    · rw [mapIndex_of_mem details hmap _ _ h]

/-- C9: `writeDetails` draws one cell per entry of the map, with text
`key: value`, in strictly ascending order of the keys; the cells are the same
for every order in which the map is iterated. -/
theorem writeDetails_sorted_by_key (details : List (String × String))
    (hmap : (details.map Prod.fst).Nodup) :
    (∃ entries : List (String × String), entries.Perm details ∧
        (entries.map Prod.fst).Sorted (fun a b => a < b) ∧
        writeDetails [] details = entries.map (fun kv => kv.1 ++ ": " ++ kv.2)) ∧
    ∀ other : List (String × String), other.Perm details →
      writeDetails [] other = writeDetails [] details := by
  have hkeys : (sortStrings (details.map Prod.fst)).Nodup :=
    (sortStrings_perm _).nodup_iff.mpr hmap
  constructor
  · refine ⟨(sortStrings (details.map Prod.fst)).map (fun k => (k, mapIndex details k)),
      sortedEntries_perm details hmap, ?_, ?_⟩
    · have hfst : ((sortStrings (details.map Prod.fst)).map
          (fun k => (k, mapIndex details k))).map Prod.fst =
          sortStrings (details.map Prod.fst) := by
        simp [List.map_map, Function.comp_def]
      rw [hfst]
      exact (sortStrings_sorted _).lt_of_le hkeys
    · rw [writeDetails_eq, List.map_map]
      rfl
  · intro other hperm
    have hmap' : (other.map Prod.fst).Nodup := (hperm.map Prod.fst).nodup_iff.mpr hmap
    rw [writeDetails_eq, writeDetails_eq, sortStrings_eq_of_perm _ _ (hperm.map Prod.fst)]
    apply List.map_congr_left
    intro k hk
    have hk' : k ∈ details.map Prod.fst := (sortStrings_perm _).mem_iff.mp hk
    obtain ⟨⟨k₀, v₀⟩, hmem, hfst⟩ := List.mem_map.mp hk'
    simp only at hfst
    subst hfst
    rw [mapIndex_of_mem details hmap _ _ hmem,
      mapIndex_of_mem other hmap' _ _ (hperm.mem_iff.mpr hmem)]

/-- C9 at the specification's example: the map with keys `Zip` and `City`
renders `City` before `Zip`, whichever key the iteration visits first. -/
theorem writeDetails_sorted_by_key_witness :
    ([("Zip", "1"), ("City", "2")].map Prod.fst).Nodup ∧
    writeDetails [] [("Zip", "1"), ("City", "2")] = ["City: 2", "Zip: 1"] ∧
    writeDetails [] [("City", "2"), ("Zip", "1")] = ["City: 2", "Zip: 1"] := by
  have hmap : ([("Zip", "1"), ("City", "2")].map Prod.fst).Nodup := by decide
  have hperm : [("City", "2"), ("Zip", "1")].Perm [("Zip", "1"), ("City", "2")] :=
    List.Perm.swap _ _ _
  have heval : writeDetails [] [("Zip", "1"), ("City", "2")] = ["City: 2", "Zip: 1"] := by
    have hlt : ¬ ("Zip" : String) ≤ "City" := by
      rw [String.le_iff_toList_le]
      decide
    simp [writeDetails, sortStrings, mapIndex, List.lookup, hlt]
  refine ⟨hmap, heval, ?_⟩
  rw [(writeDetails_sorted_by_key _ hmap).2 _ hperm, heval]

end Invoice
